import Mathlib

/-!
Verification of the movie-recommendation engine (CF training, CF inference,
content similarity, hybrid blending) against its natural-language
specification.

The Python sources are shallowly embedded: machine floats are modelled as
exact rationals (ℚ); numpy's `-inf` sentinel is modelled by `WithBot ℚ`;
quantities of the form `a / sqrt r` (which arise from L2 normalization of
rational vectors) are represented symbolically by the pair `(a, r)` so that
every definition stays computable.

`np.argpartition(-scores, n-1)[:n]` returns the indices of the `n` largest
scores in an order that numpy leaves unspecified.  It is therefore modelled
nondeterministically: functions that use it take the returned index list as
an explicit argument `p`, and theorems constrain `p` by the predicate
`SelectsTop`, which states exactly the partition contract (distinct valid
indices, `min n m` of them, every selected score at least every unselected
score).  Python's `sorted(..., reverse=True)` is stable, and is embedded by
the stable insertion sort `sortDescBy`.
-/

namespace MRP

/-- Stable descending insertion: `x` is placed before the first element `y`
with `lt y x` (strictly smaller key), hence after all earlier elements with
an equal key, exactly like Python's stable `sorted(..., reverse=True)`. -/
def insertDescBy (lt : α → α → Bool) (x : α) : List α → List α
  | [] => [x]
  | y :: ys => if lt y x then x :: y :: ys else y :: insertDescBy lt x ys

/-- Stable descending sort by the strict comparison `lt`. -/
def sortDescBy (lt : α → α → Bool) (l : List α) : List α :=
  l.foldl (fun acc x => insertDescBy lt x acc) []

theorem insertDescBy_perm (lt : α → α → Bool) (x : α) (l : List α) :
    List.Perm (insertDescBy lt x l) (x :: l) := by
  induction l with
  | nil => simp [insertDescBy]
  | cons y ys ih =>
      by_cases h : lt y x = true
      · simp [insertDescBy, h]
      · simp only [insertDescBy, h, if_false, Bool.false_eq_true]
        exact (ih.cons y).trans (List.Perm.swap x y ys)

theorem sortDescBy_aux_perm (lt : α → α → Bool) (l acc : List α) :
    List.Perm (l.foldl (fun a y => insertDescBy lt y a) acc) (l ++ acc) := by
  induction l generalizing acc with
  | nil => simp
  | cons x l ih =>
      refine ((ih (insertDescBy lt x acc)).trans ?_)
      refine (((insertDescBy_perm lt x acc).append_left l).trans ?_)
      exact List.perm_middle

theorem sortDescBy_perm (lt : α → α → Bool) (l : List α) :
    List.Perm (sortDescBy lt l) l := by
  simpa using sortDescBy_aux_perm lt l []

theorem mem_sortDescBy (lt : α → α → Bool) (l : List α) (x : α) :
    x ∈ sortDescBy lt l ↔ x ∈ l :=
  (sortDescBy_perm lt l).mem_iff

theorem length_sortDescBy (lt : α → α → Bool) (l : List α) :
    (sortDescBy lt l).length = l.length :=
  (sortDescBy_perm lt l).length_eq

/-- The output order of the stable descending sort: no element is strictly
below its successor. -/
def DescChain (lt : α → α → Bool) (l : List α) : Prop :=
  l.Chain' (fun a b => lt a b = false)

theorem head?_insertDescBy (lt : α → α → Bool) (x : α) (l : List α) :
    (insertDescBy lt x l).head? = some x ∨ (insertDescBy lt x l).head? = l.head? := by
  cases l with
  | nil => left; rfl
  | cons y ys =>
      by_cases h : lt y x = true
      · left; simp [insertDescBy, h]
      · right; simp [insertDescBy, h]

theorem descChain_insertDescBy (lt : α → α → Bool)
    (hasym : ∀ a b, lt a b = true → lt b a = false)
    (x : α) (l : List α) (hl : DescChain lt l) :
    DescChain lt (insertDescBy lt x l) := by
  induction l with
  | nil => simp [DescChain, insertDescBy]
  | cons y ys ih =>
      by_cases h : lt y x = true
      · have hxy : lt x y = false := hasym y x h
        unfold DescChain at hl ⊢
        simp only [insertDescBy, h, if_true]
        exact hl.cons hxy
      · have hl' : DescChain lt ys := (List.chain'_cons'.mp hl).2
        have hhd : ∀ z ∈ ys.head?, lt y z = false := (List.chain'_cons'.mp hl).1
        have hins := ih hl'
        unfold DescChain
        simp only [insertDescBy, h, if_false, Bool.false_eq_true]
        refine List.chain'_cons'.mpr ⟨?_, hins⟩
        intro z hz
        rcases head?_insertDescBy lt x ys with hh | hh
        · rw [hh] at hz
          simp only [Option.mem_def, Option.some.injEq] at hz
          subst hz
          simpa using h
        · rw [hh] at hz
          exact hhd z hz

theorem descChain_sortDescBy_aux (lt : α → α → Bool)
    (hasym : ∀ a b, lt a b = true → lt b a = false)
    (l acc : List α) (hacc : DescChain lt acc) :
    DescChain lt (l.foldl (fun a x => insertDescBy lt x a) acc) := by
  induction l generalizing acc with
  | nil => simpa
  | cons x l ih => exact ih _ (descChain_insertDescBy lt hasym x acc hacc)

theorem descChain_sortDescBy (lt : α → α → Bool)
    (hasym : ∀ a b, lt a b = true → lt b a = false) (l : List α) :
    DescChain lt (sortDescBy lt l) :=
  descChain_sortDescBy_aux lt hasym l [] (by simp [DescChain])

/-- Contract of `np.argpartition(-scores, n-1)[:n]` followed by nothing else:
`p` is a list of `min n m` distinct valid indices such that every selected
index has a key at least as large as every unselected one (`lt` is the
strict comparison on keys). -/
def SelectsTop (lt : α → α → Bool) (key : ℕ → α) (m n : ℕ) (p : List ℕ) : Prop :=
  p.Nodup ∧ p.length = min n m ∧ (∀ i ∈ p, i < m) ∧
    ∀ i ∈ p, ∀ j ∈ List.range m, j ∉ p → lt (key i) (key j) = false

instance (lt : α → α → Bool) (key : ℕ → α) (m n : ℕ) (p : List ℕ) :
    Decidable (SelectsTop lt key m n p) := by
  unfold SelectsTop
  infer_instance

/-- Strict comparison on CF scores.  Finite scores are exact rationals;
`⊥ : WithBot ℚ` models the float `-inf` sentinel. -/
def wbLt (a b : WithBot ℚ) : Bool := decide (a < b)

theorem wbLt_asymm (a b : WithBot ℚ) (h : wbLt a b = true) : wbLt b a = false := by
  simp only [wbLt, decide_eq_true_eq] at h
  simpa [wbLt] using not_lt_of_lt h

/-- The CF model artifact of `src/ml/inference/recommender.py`
(`CFRecommender.__init__`, loaded from the trainer's pickle).  External item
ids are numeric strings in the source (`int(...)` is applied whenever they
cross into the content space); they are modelled directly as integers.
Factor matrices, mean vectors and the rated-item table are modelled as
functions of dense indices. -/
structure CFRecommender where
  num_users : ℕ
  num_items : ℕ
  rank : ℕ
  user_index : String → Option ℕ
  item_index : ℤ → Option ℕ
  index_item : ℕ → ℤ
  user_factors : ℕ → ℕ → ℚ
  item_factors : ℕ → ℕ → ℚ
  user_means : ℕ → ℚ
  item_means : ℕ → ℚ
  global_mean : ℚ
  rated_items : ℕ → List ℕ

namespace CFRecommender

/-- `scores = self.user_factors[user_idx] @ self.item_factors + self.user_means[user_idx]`
(`recommend`, recommender.py line 54). -/
def rawScore (m : CFRecommender) (u i : ℕ) : ℚ :=
  ((List.range m.rank).map (fun f => m.user_factors u f * m.item_factors f i)).sum
    + m.user_means u

/-- The score vector after the `exclude_rated` loop: `scores[item_idx] = -np.inf`
for every `item_idx in self.rated_items.get(user_idx, [])`
(recommender.py lines 56-58). -/
def exclScore (m : CFRecommender) (excludeRated : Bool) (u i : ℕ) : WithBot ℚ :=
  if excludeRated ∧ i ∈ m.rated_items u then ⊥ else (m.rawScore u i : WithBot ℚ)

/-- `CFRecommender._top_indices` (recommender.py lines 95-101): clamp `n` to the
score count, `np.argpartition(-scores, n-1)[:n]` (the argument `p`, constrained
by `SelectsTop` in every theorem) and then the stable
`sorted(candidate_idx, key=lambda idx: scores[idx], reverse=True)`. -/
def top_indices (key : ℕ → WithBot ℚ) (p : List ℕ) : List ℕ :=
  sortDescBy (fun i j => wbLt (key i) (key j)) p

/-- One entry of `CFRecommender.recommend`'s result list:
`{"movie_id": ..., "score": ...}` (titles are display enrichment and
are not modelled). -/
structure CFEntry where
  movie_id : ℤ
  score : WithBot ℚ
  deriving DecidableEq

/-- Index list selected by the cold-start branch `_cold_start`
(recommender.py lines 75-81): scores are the item means, then `_top_indices`. -/
def coldStartIndices (m : CFRecommender) (p : List ℕ) : List ℕ :=
  top_indices (fun i => (m.item_means i : WithBot ℚ)) p

/-- Index list selected by the known-user branch of `recommend`
(recommender.py lines 53-60). -/
def knownIndices (m : CFRecommender) (u : ℕ) (excludeRated : Bool)
    (p : List ℕ) : List ℕ :=
  top_indices (m.exclScore excludeRated u) p

/-- `CFRecommender.recommend` (recommender.py lines 39-73).  `p` stands for the
index list produced by `np.argpartition` inside `_top_indices`; theorems
constrain it by `SelectsTop` for the branch that is actually taken. -/
def recommend (m : CFRecommender) (user_id : String) (n : ℕ)
    (excludeRated : Bool) (p : List ℕ) : List CFEntry :=
  if n = 0 then []
  else
    match m.user_index user_id with
    | none =>
        (m.coldStartIndices p).map
          (fun i => ⟨m.index_item i, (m.item_means i : WithBot ℚ)⟩)
    | some u =>
        (m.knownIndices u excludeRated p).map
          (fun i => ⟨m.index_item i, m.exclScore excludeRated u i⟩)

/-- The deterministic ranking the spec's cold-start sentence asks for:
all items sorted by `item_mean` descending with ties broken by ascending
item index, truncated to `min n num_items`.  (Used to state claim C4;
the source itself uses `_top_indices`.) -/
def canonicalColdStart (m : CFRecommender) (n : ℕ) : List ℕ :=
  (sortDescBy
    (fun i j => decide (m.item_means i < m.item_means j ∨
      (m.item_means i = m.item_means j ∧ j < i)))
    (List.range m.num_items)).take (min n m.num_items)

end CFRecommender

/-- The factor-rank computation of `train_svd`
(`src/ml/training/train_cf.py` lines 89-94):
`max_rank = max(1, min(num_users, num_items) - 1); k = min(rank, max_rank)`.
Natural subtraction agrees with the Python expression because the result of
`min(num_users, num_items) - 1` is clamped below by `max(1, ...)` either way. -/
def train_svd_rank (num_users num_items rank : ℕ) : ℕ :=
  let max_rank := max 1 (min num_users num_items - 1)
  min rank max_rank

/-! ### Content model (`src/ml/inference/content.py`)

TF-IDF rows are rational vectors (`List ℚ`).  `sklearn.preprocessing.normalize`
divides a row by its L2 norm and leaves zero rows unchanged; since the norm
`sqrt (sumSq v)` is irrational in general, a normalized vector is represented
by the pair `NVec = (v, sumSq v)`, denoting `v / sqrt (sumSq v)` (and `v`
itself when `sumSq v = 0`, in which case `v` is the zero vector).  A cosine
score — the dot of a normalized row `(r, c)` with a normalized profile
`(w, d)` — is likewise represented by the pair `SVal = (dot r w, c * d)`,
denoting `dot r w / sqrt (c * d)` (and `0` when the radicand is `0`, in which
case the dot also vanishes for pairs built by the embedding). -/

def dotQ : List ℚ → List ℚ → ℚ
  | [], _ => 0
  | _, [] => 0
  | a :: as', b :: bs => a * b + dotQ as' bs

def sumSq (v : List ℚ) : ℚ := dotQ v v

def vaddQ (v w : List ℚ) : List ℚ := List.zipWith (· + ·) v w

def smulQ (c : ℚ) (v : List ℚ) : List ℚ := v.map (c * ·)

/-- `matrix[indices].mean(axis=0)`: the componentwise average of a non-empty
list of rows (rows have equal length throughout the artifact). -/
def meanRows : List (List ℚ) → List ℚ
  | [] => []
  | r :: rs => smulQ (1 / (rs.length + 1 : ℚ)) (rs.foldl vaddQ r)

/-- A normalized vector `v / sqrt c` with `c = sumSq v` (see section comment). -/
def NVec : Type := List ℚ × ℚ

instance : DecidableEq NVec := by unfold NVec; infer_instance

/-- `sklearn.preprocessing.normalize` applied to the single row `v`. -/
def normalizeV (v : List ℚ) : NVec := (v, sumSq v)

/-- Squared L2 norm of the vector denoted by an `NVec`:
`sumSq (v / sqrt c) = sumSq v / c` (and `sumSq v` when `c = 0`, where the
denoted vector is `v` itself). -/
def nvecNormSq (p : NVec) : ℚ := if p.2 = 0 then sumSq p.1 else sumSq p.1 / p.2

/-- A cosine score `a / sqrt r` (see section comment). -/
def SVal : Type := ℚ × ℚ
instance : DecidableEq SVal := by unfold SVal; infer_instance

/-- Dot product of a normalized row with a normalized profile. -/
def nvecDot (r w : NVec) : SVal := (dotQ r.1 w.1, r.2 * w.2)

/-- Sign of the real number `a / sqrt r` denoted by an `SVal` (`0` when the
radicand is `0`, matching the zero-row convention). -/
def svalSign (s : SVal) : ℤ :=
  if s.2 = 0 then 0 else if s.1 < 0 then -1 else if s.1 = 0 then 0 else 1

/-- Strict comparison of the real numbers denoted by two `SVal`s:
compare signs first, then compare `a^2 * r'` with `a'^2 * r` (squaring is
order-preserving for equal signs since the square roots are positive). -/
def svalLt (s t : SVal) : Bool :=
  decide (svalSign s < svalSign t) ||
    (decide (svalSign s = svalSign t) &&
      ((decide (svalSign s = 1) && decide (s.1 ^ 2 * t.2 < t.1 ^ 2 * s.2)) ||
       (decide (svalSign s = -1) && decide (t.1 ^ 2 * s.2 < s.1 ^ 2 * t.2))))

theorem svalLt_asymm (s t : SVal) (h : svalLt s t = true) : svalLt t s = false := by
  rw [Bool.eq_false_iff]
  intro h'
  simp only [svalLt, Bool.or_eq_true, Bool.and_eq_true, decide_eq_true_eq] at h h'
  rcases h with h | ⟨he, h⟩ <;> rcases h' with h' | ⟨he', h'⟩
  · omega
  · omega
  · omega
  · rcases h with ⟨h1, hlt⟩ | ⟨h1, hlt⟩ <;> rcases h' with ⟨h1', hlt'⟩ | ⟨h1', hlt'⟩
    · linarith
    · omega
    · omega
    · linarith

/-- A content score after the `exclude_movie_ids` loop of
`recommend_from_profile`: either the float `-inf` sentinel or a cosine value. -/
inductive CScore where
  | negInf : CScore
  | val : SVal → CScore
  deriving DecidableEq

/-- Strict comparison on `CScore` (`-inf` is below every cosine value). -/
def cscoreLt : CScore → CScore → Bool
  | CScore.negInf, CScore.negInf => false
  | CScore.negInf, CScore.val _ => true
  | CScore.val _, CScore.negInf => false
  | CScore.val s, CScore.val t => svalLt s t

theorem cscoreLt_asymm (a b : CScore) (h : cscoreLt a b = true) :
    cscoreLt b a = false := by
  cases a <;> cases b <;> simp_all [cscoreLt, svalLt_asymm]

/-- The content artifact of `ContentRecommender.__init__` (content.py lines
16-20): the raw TF-IDF matrix (`rows`) and the parallel id list.  The
row-normalized copy `matrix_norm` and the id→position dict `movie_index` are
derived below exactly as in the constructor. -/
structure ContentRecommender where
  rows : List (List ℚ)
  movie_ids : List ℤ

namespace ContentRecommender

/-- Index/id pairs of `enumerate(movie_ids)`. -/
def idxPairs (l : List ℤ) : List (ℕ × ℤ) :=
  (List.range l.length).map (fun i => (i, l.getD i 0))

/-- `self.movie_index = {movie_id: idx for idx, movie_id in enumerate(movie_ids)}`:
a Python dict comprehension keeps the LAST position of a duplicated id, hence
the reversed search. -/
def movie_index (m : ContentRecommender) (mid : ℤ) : Option ℕ :=
  ((idxPairs m.movie_ids).reverse.find? (fun q => q.2 = mid)).map (fun q => q.1)

/-- Row `i` of `self.matrix_norm = normalize(self.matrix, axis=1)`. -/
def normRow (m : ContentRecommender) (i : ℕ) : NVec :=
  normalizeV (m.rows.getD i [])

/-- `ContentRecommender.profile_from_movie_ids` (content.py lines 34-39). -/
def profile_from_movie_ids (m : ContentRecommender) (movieIds : List ℤ) :
    Option NVec :=
  let indices := movieIds.filterMap m.movie_index
  if indices = [] then none
  else some (normalizeV (meanRows (indices.map (fun i => m.rows.getD i []))))

/-- The `(movie_id, score)` pair list out of which `similarity_to_profile`
builds its result dict (content.py lines 41-53): known candidate ids are
mapped to their row position, unknown ids are dropped, and each kept id is
paired with the cosine of its normalized row with the profile. -/
def simPairs (m : ContentRecommender) (profile : NVec) (candidates : List ℤ) :
    List (ℤ × SVal) :=
  candidates.filterMap (fun mid =>
    (m.movie_index mid).map (fun idx =>
      (m.movie_ids.getD idx 0, nvecDot (m.normRow idx) profile)))

/-- Lookup in the dict `{movie_id: score for ...}` built from `simPairs`:
a Python dict keeps the value of the LAST pair with a given key. -/
def dictLookup (pairs : List (ℤ × SVal)) (mid : ℤ) : Option SVal :=
  (pairs.reverse.find? (fun q => q.1 = mid)).map (fun q => q.2)

/-- `ContentRecommender.similarity_to_profile` (content.py lines 41-53),
viewed as the id → cosine-score map of the returned dict.  (The early
`if not idx_list: return {}` branch returns the same empty map.) -/
def similarity_to_profile (m : ContentRecommender) (profile : NVec)
    (candidates : List ℤ) (mid : ℤ) : Option SVal :=
  dictLookup (simPairs m profile candidates) mid

/-- One entry of `recommend_from_profile`'s result:
`{"movie_id": str(...), "content_score": float(...)}`. -/
structure CEntry where
  movie_id : ℤ
  content_score : CScore
  deriving DecidableEq

/-- The score vector of `recommend_from_profile` after the exclusion loop
(content.py lines 62-71): cosine of every normalized row with the profile,
with excluded known ids forced to `-np.inf`. -/
def fullScore (m : ContentRecommender) (profile : NVec)
    (exclude : List ℤ) (i : ℕ) : CScore :=
  if i ∈ exclude.filterMap m.movie_index then CScore.negInf
  else CScore.val (nvecDot (m.normRow i) profile)

/-- `ContentRecommender.recommend_from_profile` (content.py lines 55-80).
`p` stands for `np.argpartition(-score_list, n-1)[:n]`; theorems constrain it
by `SelectsTop`.  The subsequent stable `sorted(..., reverse=True)` is
`sortDescBy`. -/
def recommend_from_profile (m : ContentRecommender) (profile : NVec) (n : ℕ)
    (exclude : List ℤ) (p : List ℕ) : List CEntry :=
  if n = 0 then []
  else
    (sortDescBy (fun i j => cscoreLt (m.fullScore profile exclude i)
        (m.fullScore profile exclude j)) p).map
      (fun i => ⟨m.movie_ids.getD i 0, m.fullScore profile exclude i⟩)

/-- Modelled from the spec: `ContentRecommender.profile_from_texts` is called
by the serving layer (main.py lines 506 and 578) but is absent from the
sources.  Per §4.3 it transforms each free text through the same fitted
vocabulary (modelled as rows already mapped into the TF-IDF space, terms
outside the vocabulary contributing nothing), then averages and
L2-normalizes identically to `profile_from_movie_ids`; with no texts there
is nothing to average and no profile. -/
def profile_from_texts (textRows : List (List ℚ)) : Option NVec :=
  if textRows = [] then none else some (normalizeV (meanRows textRows))

end ContentRecommender

/-! ### Hybrid blender (`src/ml/inference/hybrid.py`)

`HybridRecommender.recommend` calls `self.cf.score_items(...)` and
`self.cf.top_indices(...)`.  `CFRecommender` (recommender.py) defines
neither method — only the private `_top_indices` exists — so these two are
modelled from the spec (§4.2): `score_items` is the per-item score vector of
the known-user branch with the `-inf` exclusion applied, empty for an
unknown user; `top_indices` is top-`n` selection by score descending with
ties broken by ascending item index, the deterministic discipline §4.2
prescribes. -/

/-- `HybridConfig` (hybrid.py lines 12-16). -/
structure HybridConfig where
  cf_weight : ℚ := 7 / 10
  content_weight : ℚ := 3 / 10
  candidate_k : ℕ := 200

/-- `HybridRecommender._min_max` (hybrid.py lines 76-85): empty in, empty
out; all-equal values map to `np.ones_like`; otherwise `(x - min) / (max - min)`.
The seed-hybrid endpoint (main.py lines 613-618) performs the identical
computation on a Python list. -/
def min_max (l : List ℚ) : List ℚ :=
  match l with
  | [] => []
  | x :: xs =>
      let mn := xs.foldl min x
      let mx := xs.foldl max x
      if mx = mn then l.map (fun _ => 1)
      else l.map (fun v => (v - mn) / (mx - mn))

/-- Modelled from the spec: `CFRecommender.score_items`, called by
`HybridRecommender.recommend` (hybrid.py line 36) but absent from
recommender.py.  Per §4.2, for a known user it is the vector
`dot(user_factors[u], item_factors[:,i]) + user_means[u]` over all items with
`-inf` forced onto rated items when `exclude_rated`; for an unknown user
there is no score vector (the caller treats an empty vector as "no result"). -/
def score_items (m : CFRecommender) (user_id : String) (excludeRated : Bool) :
    List (WithBot ℚ) :=
  match m.user_index user_id with
  | none => []
  | some u => (List.range m.num_items).map (m.exclScore excludeRated u)

/-- Modelled from the spec: `CFRecommender.top_indices`, called by
`HybridRecommender.recommend` (hybrid.py line 40) but absent from
recommender.py.  Per §4.2 it selects the top `n` indices by score
descending with ties among exactly equal scores resolved by ascending item
index, which equals a full deterministic sort truncated to `min n m`. -/
def top_indices_model (key : ℕ → WithBot ℚ) (m n : ℕ) : List ℕ :=
  (sortDescBy
    (fun i j => decide (key i < key j ∨ (key i = key j ∧ j < i)))
    (List.range m)).take (min n m)

/-- A blended hybrid score `q + a / sqrt r`: the rational part collects the
weighted min-max-normalized CF score and the constant from rescaling the
cosine by `(x + 1) / 2`; the `SVal` part is the weighted cosine radical. -/
def BScore : Type := ℚ × SVal
instance : DecidableEq BScore := by unfold BScore; infer_instance

/-- One entry of `HybridRecommender._format_results` (hybrid.py lines 87-102):
`movie_id` and `cf_score` always; `hybrid_score` only when blended scores
were passed. -/
structure HEntry where
  movie_id : ℤ
  cf_score : WithBot ℚ
  hybrid_score : Option BScore
  deriving DecidableEq

/-- `HybridRecommender._format_results` (hybrid.py lines 87-102). -/
def format_results (m : CFRecommender) (key : ℕ → WithBot ℚ)
    (indices : List ℕ) (hybrid : Option (List BScore)) : List HEntry :=
  match hybrid with
  | none => indices.map (fun i => ⟨m.index_item i, key i, none⟩)
  | some hs => (indices.zip hs).map (fun q => ⟨m.index_item q.1, key q.1, some q.2⟩)

/-- `HybridRecommender._build_profile` (hybrid.py lines 67-74). -/
def build_profile (m : CFRecommender) (cm : ContentRecommender)
    (user_id : String) : Option NVec :=
  match m.user_index user_id with
  | none => none
  | some u =>
      if m.rated_items u = [] then none
      else cm.profile_from_movie_ids ((m.rated_items u).map m.index_item)

/-- `HybridRecommender.recommend` (hybrid.py lines 30-65).  `bo` stands for
the output of `np.argsort(-final_scores)` over candidate positions in the
blended branch (numpy's sort order on these irrational reals is not
reproducible in ℚ and no claim constrains it); the fallback branches do not
consult it.  In `cf_norm`, the source would propagate float NaN if a `-inf`
sentinel survived into the candidate set; that corner is idealized by
reading the sentinel as 0, and no claim depends on the blended branch. -/
def recommendHybrid (m : CFRecommender) (cm : ContentRecommender)
    (cfg : HybridConfig) (bo : List ℕ) (user_id : String) (n : ℕ)
    (excludeRated : Bool) : List HEntry :=
  let scores := score_items m user_id excludeRated
  if scores.length = 0 then []
  else
    let key := fun i => scores.getD i ⊥
    let candidateIdx := top_indices_model key scores.length cfg.candidate_k
    let candidateMids := candidateIdx.map m.index_item
    match build_profile m cm user_id with
    | none => format_results m key candidateIdx none
    | some prof =>
        if candidateMids.filterMap cm.movie_index = [] then
          format_results m key candidateIdx none
        else
          let cfNorm := min_max (candidateIdx.map (fun i => (key i).unbot' 0))
          let final : ℕ → BScore := fun pos =>
            let cs := (ContentRecommender.similarity_to_profile cm prof
              candidateMids (candidateMids.getD pos 0)).getD (0, 1)
            (cfg.cf_weight * cfNorm.getD pos 0 + cfg.content_weight / 2,
             (cfg.content_weight * cs.1 / 2, cs.2))
          let topPos := bo.take n
          format_results m key (topPos.map (fun pos => candidateIdx.getD pos 0))
            (some (topPos.map final))

/-! ### Seed-anchored hybrid endpoint
(`get_seed_hybrid_recommendations`, `src/server/app/main.py` lines 540-645)

External collaborators are modelled as inputs: `modelLoaded` (`_HYBRID`/
`_MODEL` present), `dbConfigured` (`_ENGINE` present), `tmdbConfigured`
(`_TMDB` present), `dbMap` (the `movielens_tmdb_map` table, tmdb id →
movielens id), and `textOf` (the TMDB bundle of an unmapped seed transformed
through the fitted vectorizer into a TF-IDF row).  The call
`recommend_from_profile(profile, n=max(n, candidate_k), exclude_movie_ids=...)`
on the merged profile yields cosine scores of the form
`(a/sqrt c + b/sqrt d)/sqrt s` with `s` itself irrational; its `(movie_id,
content_score)` output list is therefore taken as the input
`content_results`, and everything downstream of it — the CF popularity
proxy, the min-max normalization, the 0.7/0.3 blend, the final sort and
truncation — is embedded exactly. -/

/-- The error responses the endpoint can raise, in source order:
HTTP 503 (model), 503 (database), 400 (empty seed list), 503 (TMDB key),
404 "No content profile available" (the `NoProfileAvailable` /
"not found"-class result of §7). -/
inductive SeedErr where
  | modelNotLoaded : SeedErr
  | dbNotConfigured : SeedErr
  | badRequest : SeedErr
  | tmdbNotConfigured : SeedErr
  | noProfile : SeedErr
  deriving DecidableEq

/-- One entry of the seed-hybrid response (content score as returned by the
retrieval stage, CF popularity proxy, blended score). -/
structure SeedOut where
  movie_id : ℤ
  content_score : ℚ
  cf_score : ℚ
  hybrid_score : ℚ
  deriving DecidableEq

/-- `get_seed_hybrid_recommendations` (main.py lines 540-645), up to the
title/poster display enrichment. -/
def seed_hybrid (modelLoaded dbConfigured tmdbConfigured : Bool)
    (cm : ContentRecommender) (item_index : ℤ → Option ℕ)
    (item_means : ℕ → ℚ) (global_mean : ℚ) (dbMap : ℤ → Option ℤ)
    (textOf : ℤ → List ℚ) (tmdb_ids : List ℤ) (n : ℕ)
    (content_results : List (ℤ × ℚ)) : Except SeedErr (List SeedOut) :=
  if ¬ modelLoaded then Except.error SeedErr.modelNotLoaded
  else if ¬ dbConfigured then Except.error SeedErr.dbNotConfigured
  else if tmdb_ids = [] then Except.error SeedErr.badRequest
  else
    let movielens_ids := tmdb_ids.filterMap dbMap
    let missing := tmdb_ids.filter (fun t => (dbMap t).isNone)
    if missing ≠ [] ∧ ¬ tmdbConfigured then Except.error SeedErr.tmdbNotConfigured
    else
      let text_profile :=
        if missing = [] then none
        else ContentRecommender.profile_from_texts (missing.map textOf)
      let mapped_profile := cm.profile_from_movie_ids movielens_ids
      if mapped_profile = none ∧ text_profile = none then
        Except.error SeedErr.noProfile
      else if content_results = [] then Except.ok []
      else
        let mids := content_results.map (fun e => e.1)
        let cf_scores := mids.map (fun mid =>
          match item_index mid with
          | none => global_mean
          | some idx => item_means idx)
        let cf_norm := min_max cf_scores
        let results := (content_results.zip (cf_scores.zip cf_norm)).map
          (fun q => SeedOut.mk q.1.1 q.1.2 q.2.1 (7 / 10 * q.2.2 + 3 / 10 * q.1.2))
        Except.ok ((sortDescBy
          (fun a b => decide (a.hybrid_score < b.hybrid_score)) results).take n)

/-! ### Helper lemmas -/

theorem foldl_min_le_init (x : ℚ) (xs : List ℚ) : xs.foldl min x ≤ x := by
  induction xs generalizing x with
  | nil => exact le_rfl
  | cons y ys ih => exact le_trans (ih (min x y)) (min_le_left x y)

theorem foldl_min_le (x v : ℚ) (xs : List ℚ) (hv : v ∈ x :: xs) :
    xs.foldl min x ≤ v := by
  induction xs generalizing x with
  | nil => simp only [List.mem_singleton] at hv; simp [hv]
  | cons y ys ih =>
      rw [List.foldl_cons]
      rcases List.mem_cons.mp hv with rfl | hv'
      · exact le_trans (foldl_min_le_init (min v y) ys) (min_le_left v y)
      · rcases List.mem_cons.mp hv' with rfl | hv''
        · exact le_trans (foldl_min_le_init (min x v) ys) (min_le_right x v)
        · exact ih (min x y) (List.mem_cons_of_mem _ hv'')

theorem le_foldl_max_init (x : ℚ) (xs : List ℚ) : x ≤ xs.foldl max x := by
  induction xs generalizing x with
  | nil => exact le_rfl
  | cons y ys ih => exact le_trans (le_max_left x y) (ih (max x y))

theorem le_foldl_max (x v : ℚ) (xs : List ℚ) (hv : v ∈ x :: xs) :
    v ≤ xs.foldl max x := by
  induction xs generalizing x with
  | nil => simp only [List.mem_singleton] at hv; simp [hv]
  | cons y ys ih =>
      rw [List.foldl_cons]
      rcases List.mem_cons.mp hv with rfl | hv'
      · exact le_trans (le_max_left v y) (le_foldl_max_init (max v y) ys)
      · rcases List.mem_cons.mp hv' with rfl | hv''
        · exact le_trans (le_max_right x v) (le_foldl_max_init (max x v) ys)
        · exact ih (max x y) (List.mem_cons_of_mem _ hv'')

theorem foldl_min_mem (x : ℚ) (xs : List ℚ) : xs.foldl min x ∈ x :: xs := by
  induction xs generalizing x with
  | nil => simp
  | cons y ys ih =>
      have h := ih (min x y)
      rcases List.mem_cons.mp h with h' | h'
      · rcases min_cases x y with ⟨he, -⟩ | ⟨he, -⟩
        · rw [List.foldl_cons, h', he]; simp
        · rw [List.foldl_cons, h', he]; simp
      · simp only [List.foldl_cons]
        exact List.mem_cons_of_mem _ (List.mem_cons_of_mem _ h')

theorem foldl_max_mem (x : ℚ) (xs : List ℚ) : xs.foldl max x ∈ x :: xs := by
  induction xs generalizing x with
  | nil => simp
  | cons y ys ih =>
      have h := ih (max x y)
      rcases List.mem_cons.mp h with h' | h'
      · rcases max_cases x y with ⟨he, -⟩ | ⟨he, -⟩
        · rw [List.foldl_cons, h', he]; simp
        · rw [List.foldl_cons, h', he]; simp
      · simp only [List.foldl_cons]
        exact List.mem_cons_of_mem _ (List.mem_cons_of_mem _ h')

/-! ### Claims -/

/-- C7 (counterexample): with 1 user, 5 items and requested rank 2 the
trainer uses `k = min(2, max(1, 0)) = 1`, not the claimed
`min(2, min(1, 5) - 1) = 0`. -/
theorem c7_rank_counterexample :
    train_svd_rank 1 5 2 = 1 ∧ train_svd_rank 1 5 2 ≠ min 2 (min 1 5 - 1) := by
  decide

/-- C7 (amended): the trainer uses
`k = min(requested_rank, max(1, min(num_users, num_items) - 1))`; the claimed
formula `min(requested_rank, min(num_users, num_items) - 1)` holds whenever
`min(num_users, num_items) ≥ 2`, while for `min(num_users, num_items) ≤ 1`
the rank is clamped to `min(requested_rank, 1)` instead of 0. -/
theorem c7_rank_amended (num_users num_items rank : ℕ) :
    (2 ≤ min num_users num_items →
      train_svd_rank num_users num_items rank
        = min rank (min num_users num_items - 1)) ∧
    (min num_users num_items ≤ 1 →
      train_svd_rank num_users num_items rank = min rank 1) := by
  simp only [train_svd_rank]
  omega

theorem c7_rank_amended_witness :
    train_svd_rank 5 3 2 = min 2 (min 5 3 - 1) :=
  (c7_rank_amended 5 3 2).1 (by decide)

/-- C6: min-max normalization of any nonempty rational score vector yields
values in `[0, 1]`, and when all inputs are equal every output is exactly 1
(the computation is total and never divides by zero). -/
theorem c6_min_max (l : List ℚ) (hne : l ≠ []) :
    (∀ y ∈ min_max l, 0 ≤ y ∧ y ≤ 1) ∧
    ((∀ a ∈ l, ∀ b ∈ l, a = b) → ∀ y ∈ min_max l, y = 1) := by
  cases l with
  | nil => exact absurd rfl hne
  | cons x xs =>
      by_cases h : xs.foldl max x = xs.foldl min x
      · constructor
        · intro y hy
          simp only [min_max, h, if_pos rfl] at hy
          rcases List.mem_map.mp hy with ⟨v, -, rfl⟩
          norm_num
        · intro _ y hy
          simp only [min_max, h, if_pos rfl] at hy
          rcases List.mem_map.mp hy with ⟨v, -, rfl⟩
          rfl
      · have hmnx : xs.foldl min x ≤ x := foldl_min_le x x xs (by simp)
        have hxmx : x ≤ xs.foldl max x := le_foldl_max x x xs (by simp)
        have hlt : xs.foldl min x < xs.foldl max x :=
          lt_of_le_of_ne (le_trans hmnx hxmx) (fun he => h he.symm)
        constructor
        · intro y hy
          simp only [min_max, if_neg h] at hy
          rcases List.mem_map.mp hy with ⟨v, hv, rfl⟩
          have h1 : xs.foldl min x ≤ v := foldl_min_le x v xs hv
          have h2 : v ≤ xs.foldl max x := le_foldl_max x v xs hv
          constructor
          · exact div_nonneg (by linarith) (by linarith)
          · rw [div_le_one (by linarith)]
            linarith
        · intro hall y hy
          exfalso
          have hmem1 := foldl_min_mem x xs
          have hmem2 := foldl_max_mem x xs
          exact h (hall _ hmem2 _ hmem1)

theorem c6_min_max_witness :
    (∀ y ∈ min_max [(1 : ℚ), 3], 0 ≤ y ∧ y ≤ 1) ∧
    ((∀ a ∈ [(1 : ℚ), 3], ∀ b ∈ [(1 : ℚ), 3], a = b) →
      ∀ y ∈ min_max [(1 : ℚ), 3], y = 1) :=
  c6_min_max [(1 : ℚ), 3] (by decide)

theorem nvecNormSq_normalizeV (v : List ℚ) :
    nvecNormSq (normalizeV v) = 1 ↔ sumSq v ≠ 0 := by
  unfold nvecNormSq normalizeV
  by_cases hz : sumSq v = 0
  · simp [hz]
  · simp [hz, div_self hz]

/-- C5 (counterexample): a content index with a single all-zero TF-IDF row
(id 7).  `profile_from_movie_ids [7]` recognizes the id, so the claim
demands a unit-norm profile, but the returned profile is the zero vector
with squared norm 0, not 1. -/
theorem c5_profile_counterexample :
    (ContentRecommender.mk [[0, 0]] [7]).movie_index 7 = some 0 ∧
    (ContentRecommender.mk [[0, 0]] [7]).profile_from_movie_ids [7]
      = some (([0, 0], 0) : NVec) ∧
    ¬ nvecNormSq (([0, 0], 0) : NVec) = 1 := by
  refine ⟨by decide, ?_, by norm_num [nvecNormSq, sumSq, dotQ]⟩
  have hfm : List.filterMap (ContentRecommender.mk [[0, 0]] [7]).movie_index [7]
      = [0] := by decide
  unfold ContentRecommender.profile_from_movie_ids
  rw [hfm]
  norm_num [normalizeV, meanRows, smulQ, sumSq, dotQ]

/-- C5 (amended): `profile_from_movie_ids` returns "no profile" exactly when
none of the given ids are known; otherwise it returns the L2-normalization
of the mean of the known rows, which has unit norm if and only if that mean
is nonzero (an all-zero mean — possible because TF-IDF rows may be zero —
yields the zero profile instead; a zero norm is never divided by). -/
theorem c5_profile_amended (m : ContentRecommender) (ids : List ℤ) :
    (m.profile_from_movie_ids ids = none ↔
      ∀ mid ∈ ids, m.movie_index mid = none) ∧
    (∀ w : NVec, m.profile_from_movie_ids ids = some w →
      w.2 = sumSq w.1 ∧ (nvecNormSq w = 1 ↔ sumSq w.1 ≠ 0)) := by
  constructor
  · constructor
    · intro hnone
      unfold ContentRecommender.profile_from_movie_ids at hnone
      by_cases h : ids.filterMap m.movie_index = []
      · exact List.filterMap_eq_nil_iff.mp h
      · rw [if_neg h] at hnone
        exact absurd hnone (by simp)
    · intro hall
      unfold ContentRecommender.profile_from_movie_ids
      rw [if_pos (List.filterMap_eq_nil_iff.mpr hall)]
  · intro w hw
    unfold ContentRecommender.profile_from_movie_ids at hw
    by_cases h : ids.filterMap m.movie_index = []
    · rw [if_pos h] at hw
      exact absurd hw (by simp)
    · rw [if_neg h] at hw
      have hw' := Option.some.inj hw
      subst hw'
      exact ⟨rfl, nvecNormSq_normalizeV _⟩

/-- Concrete CF model used to refute claim C3 as stated: two items, the
known user 0 has rated item 0, all factor scores are 0. -/
def cfC3x : CFRecommender where
  num_users := 1
  num_items := 2
  rank := 0
  user_index := fun s => if s = "u1" then some 0 else none
  item_index := fun _ => none
  index_item := fun i => (i : ℤ)
  user_factors := fun _ _ => 0
  item_factors := fun _ _ => 0
  user_means := fun _ => 0
  item_means := fun _ => 0
  global_mean := 0
  rated_items := fun u => if u = 0 then [0] else []

theorem cfC3x_exclScore : cfC3x.exclScore true 0 = fun i =>
    if i = 0 then (⊥ : WithBot ℚ) else ((0 : ℚ) : WithBot ℚ) := by
  have hraw : ∀ i, cfC3x.rawScore 0 i = 0 := by
    intro i; norm_num [CFRecommender.rawScore, cfC3x]
  funext i
  by_cases h : i = 0
  · subst h
    unfold CFRecommender.exclScore
    rw [if_pos (by simp [cfC3x]), if_pos rfl]
  · unfold CFRecommender.exclScore
    rw [if_neg (by simp [cfC3x, h]), hraw i, if_neg h]

/-- C3 (counterexample): with 2 items of which the user has rated item 0,
asking for `n = 2` recommendations with `exclude_rated=True` returns the
rated item 0 anyway (its `-inf` sentinel score notwithstanding), because
`_top_indices` clamps `n` to the item count and `argpartition` must then
select every index.  This refutes the claim for `n` larger than the number
of unrated items. -/
theorem c3_exclude_counterexample :
    cfC3x.user_index "u1" = some 0 ∧
    SelectsTop wbLt (cfC3x.exclScore true 0) 2 2 [0, 1] ∧
    0 ∈ cfC3x.rated_items 0 ∧
    0 ∈ cfC3x.knownIndices 0 true [0, 1] := by
  refine ⟨by decide, ?_, by decide, ?_⟩
  · rw [cfC3x_exclScore]; decide
  · unfold CFRecommender.knownIndices CFRecommender.top_indices
    rw [cfC3x_exclScore]; decide

/-- C3 (amended): for every known user `u`, if the requested count `n` does
not exceed the number of unrated items then `recommend(u, n, exclude_rated=True)`
returns no item whose index is in `rated_items[u]` — the `-inf` sentinel
prevents a rated item from being selected as long as enough unrated
candidates exist.  (For larger `n` a rated item can be returned, see the
counterexample.) -/
theorem c3_exclude_amended (m : CFRecommender) (uid : String) (u n : ℕ)
    (p : List ℕ)
    (hu : m.user_index uid = some u)
    (hp : SelectsTop wbLt (m.exclScore true u) m.num_items n p)
    (hn : n ≤ ((Finset.range m.num_items).filter
      (fun j => j ∉ m.rated_items u)).card) :
    (∀ i ∈ m.knownIndices u true p, i ∉ m.rated_items u) ∧
    (n ≠ 0 → m.recommend uid n true p = (m.knownIndices u true p).map
      (fun i => ⟨m.index_item i, m.exclScore true u i⟩)) := by
  constructor
  · intro i hi hrated
    have hip : i ∈ p := (mem_sortDescBy _ _ _).mp hi
    have hkeyi : m.exclScore true u i = ⊥ := by
      simp [CFRecommender.exclScore, hrated]
    have hsub : (Finset.range m.num_items).filter
        (fun j => j ∉ m.rated_items u) ⊆ p.toFinset := by
      intro j hj
      simp only [Finset.mem_filter, Finset.mem_range] at hj
      by_contra hjp
      rw [List.mem_toFinset] at hjp
      have h4 := hp.2.2.2 i hip j (List.mem_range.mpr hj.1) hjp
      have hkeyj : m.exclScore true u j = (m.rawScore u j : WithBot ℚ) := by
        simp [CFRecommender.exclScore, hj.2]
      rw [hkeyi, hkeyj] at h4
      simp only [wbLt, decide_eq_false_iff_not] at h4
      exact h4 (WithBot.bot_lt_coe _)
    have hins : insert i ((Finset.range m.num_items).filter
        (fun j => j ∉ m.rated_items u)) ⊆ p.toFinset :=
      Finset.insert_subset (List.mem_toFinset.mpr hip) hsub
    have hiU : i ∉ (Finset.range m.num_items).filter
        (fun j => j ∉ m.rated_items u) := by
      simp [hrated]
    have hcard := Finset.card_le_card hins
    rw [Finset.card_insert_of_not_mem hiU] at hcard
    have hlen : p.toFinset.card = min n m.num_items := by
      rw [List.toFinset_card_of_nodup hp.1]; exact hp.2.1
    have hmin := Nat.min_le_left n m.num_items
    omega
  · intro hn0
    simp [CFRecommender.recommend, hn0, hu]

/-- Concrete CF model for the C3 witness: two items, user 0 has rated
item 1, one unrated item remains. -/
def cfC3w : CFRecommender where
  num_users := 1
  num_items := 2
  rank := 0
  user_index := fun s => if s = "u1" then some 0 else none
  item_index := fun _ => none
  index_item := fun i => (i : ℤ)
  user_factors := fun _ _ => 0
  item_factors := fun _ _ => 0
  user_means := fun _ => 0
  item_means := fun _ => 0
  global_mean := 0
  rated_items := fun u => if u = 0 then [1] else []

theorem cfC3w_exclScore : cfC3w.exclScore true 0 = fun i =>
    if i = 1 then (⊥ : WithBot ℚ) else ((0 : ℚ) : WithBot ℚ) := by
  have hraw : ∀ i, cfC3w.rawScore 0 i = 0 := by
    intro i; norm_num [CFRecommender.rawScore, cfC3w]
  funext i
  by_cases h : i = 1
  · subst h
    unfold CFRecommender.exclScore
    rw [if_pos (by simp [cfC3w]), if_pos rfl]
  · unfold CFRecommender.exclScore
    rw [if_neg (by simp [cfC3w, h]), hraw i, if_neg h]

theorem c3_exclude_amended_witness : 0 ∉ cfC3w.rated_items 0 :=
  (c3_exclude_amended cfC3w "u1" 0 1 [0] (by decide)
    (by rw [cfC3w_exclScore]; decide) (by decide)).1 0
    (by unfold CFRecommender.knownIndices CFRecommender.top_indices
        rw [cfC3w_exclScore]; decide)

/-- Concrete CF model used to refute claim C4 as stated: two items with
exactly equal means. -/
def cfC4x : CFRecommender where
  num_users := 0
  num_items := 2
  rank := 0
  user_index := fun _ => none
  item_index := fun _ => none
  index_item := fun i => (i : ℤ)
  user_factors := fun _ _ => 0
  item_factors := fun _ _ => 0
  user_means := fun _ => 0
  item_means := fun _ => 1
  global_mean := 0
  rated_items := fun _ => []

/-- C4 (counterexample): both items have `item_mean = 1`.  The partition
step may legitimately emit the tied indices as `[1, 0]` (the `SelectsTop`
contract holds), and the stable descending sort keeps that order, so cold
start returns `[1, 0]` — not the claimed ascending tie order `[0, 1]`. -/
theorem c4_cold_counterexample :
    cfC4x.user_index "nobody" = none ∧
    SelectsTop wbLt (fun i => (cfC4x.item_means i : WithBot ℚ)) 2 2 [1, 0] ∧
    cfC4x.coldStartIndices [1, 0] ≠ cfC4x.canonicalColdStart 2 := by
  refine ⟨rfl, by decide, ?_⟩
  unfold CFRecommender.coldStartIndices CFRecommender.top_indices
    CFRecommender.canonicalColdStart
  decide

/-- C4 (amended): for a user absent from the index (and `n > 0`),
`recommend` returns the cold-start list: the indices selected by the
partition step, reordered into weakly descending `item_mean` order by the
stable sort, each paired with its mean.  Ties among exactly equal means
keep the partition's emission order, which is not guaranteed to be
ascending item index. -/
theorem c4_cold_amended (m : CFRecommender) (uid : String) (n : ℕ)
    (er : Bool) (p : List ℕ)
    (hu : m.user_index uid = none) (hn : n ≠ 0)
    (hp : SelectsTop wbLt (fun i => (m.item_means i : WithBot ℚ))
      m.num_items n p) :
    m.recommend uid n er p = (m.coldStartIndices p).map
      (fun i => ⟨m.index_item i, (m.item_means i : WithBot ℚ)⟩) ∧
    List.Perm (m.coldStartIndices p) p ∧
    (m.coldStartIndices p).length = min n m.num_items ∧
    DescChain wbLt ((m.coldStartIndices p).map
      (fun i => (m.item_means i : WithBot ℚ))) := by
  refine ⟨?_, ?_, ?_, ?_⟩
  · simp [CFRecommender.recommend, hn, hu]
  · exact sortDescBy_perm _ p
  · exact ((sortDescBy_perm _ p).length_eq).trans hp.2.1
  · unfold DescChain
    rw [List.chain'_map]
    exact descChain_sortDescBy _
      (fun i j h => wbLt_asymm _ _ h) p

/-- Concrete CF model for the C4 witness: two items with distinct means. -/
def cfC4w : CFRecommender where
  num_users := 0
  num_items := 2
  rank := 0
  user_index := fun _ => none
  item_index := fun _ => none
  index_item := fun i => (i : ℤ)
  user_factors := fun _ _ => 0
  item_factors := fun _ _ => 0
  user_means := fun _ => 0
  item_means := fun i => if i = 0 then 2 else 1
  global_mean := 0
  rated_items := fun _ => []

theorem c4_cold_amended_witness : List.Perm (cfC4w.coldStartIndices [0]) [0] :=
  (c4_cold_amended cfC4w "nobody" 1 false [0] rfl (by decide) (by decide)).2.1

theorem c5_profile_amended_witness :
    nvecNormSq ((([1, 0] : List ℚ), (1 : ℚ)) : NVec) = 1 ↔
      sumSq ([1, 0] : List ℚ) ≠ 0 :=
  ((c5_profile_amended (ContentRecommender.mk [[1, 0]] [5]) [5]).2
    ((([1, 0] : List ℚ), (1 : ℚ)) : NVec)
    (by
      have hfm : List.filterMap (ContentRecommender.mk [[1, 0]] [5]).movie_index [5]
          = [0] := by decide
      unfold ContentRecommender.profile_from_movie_ids
      rw [hfm]
      norm_num [normalizeV, meanRows, smulQ, sumSq, dotQ])).2

theorem movie_index_spec (m : ContentRecommender) (mid : ℤ) (idx : ℕ)
    (h : m.movie_index mid = some idx) :
    idx < m.movie_ids.length ∧ m.movie_ids.getD idx 0 = mid := by
  unfold ContentRecommender.movie_index at h
  rcases Option.map_eq_some'.mp h with ⟨q, hq, hq1⟩
  have hpred := List.find?_some hq
  have hmem := List.mem_of_find?_eq_some hq
  rw [List.mem_reverse] at hmem
  unfold ContentRecommender.idxPairs at hmem
  rcases List.mem_map.mp hmem with ⟨i, hi, hqe⟩
  rw [List.mem_range] at hi
  subst hqe
  simp only [decide_eq_true_eq] at hpred
  simp only at hq1
  subst hq1
  exact ⟨hi, hpred⟩

theorem dictLookup_cons (q : ℤ × SVal) (pairs : List (ℤ × SVal)) (mid : ℤ) :
    ContentRecommender.dictLookup (q :: pairs) mid =
      match ContentRecommender.dictLookup pairs mid with
      | some s => some s
      | none => if q.1 = mid then some q.2 else none := by
  unfold ContentRecommender.dictLookup
  rw [List.reverse_cons, List.find?_append]
  cases hf : pairs.reverse.find? (fun r => r.1 = mid) with
  | none =>
      by_cases hq : q.1 = mid
      · simp [Option.or, List.find?, hq]
      · simp [Option.or, List.find?, hq]
  | some s => simp [Option.or]

theorem similarity_lookup_eq (m : ContentRecommender) (profile : NVec)
    (l : List ℤ) (mid : ℤ) :
    m.similarity_to_profile profile l mid =
      if mid ∈ l then (m.movie_index mid).map
        (fun idx => nvecDot (m.normRow idx) profile) else none := by
  induction l with
  | nil =>
      simp [ContentRecommender.similarity_to_profile,
        ContentRecommender.simPairs, ContentRecommender.dictLookup]
  | cons a l ih =>
      unfold ContentRecommender.similarity_to_profile at ih ⊢
      cases hma : m.movie_index a with
      | none =>
          have hsp : ContentRecommender.simPairs m profile (a :: l)
              = ContentRecommender.simPairs m profile l := by
            unfold ContentRecommender.simPairs
            rw [List.filterMap_cons]
            simp [hma]
          rw [hsp, ih]
          by_cases hml : mid ∈ l
          · rw [if_pos hml, if_pos (List.mem_cons_of_mem a hml)]
          · rw [if_neg hml]
            by_cases hia : mid = a
            · subst hia
              rw [if_pos (List.mem_cons_self _ _), hma]
              rfl
            · rw [if_neg (by simp [hia, hml])]
      | some idx =>
          have hkey : m.movie_ids.getD idx 0 = a := (movie_index_spec m a idx hma).2
          have hsp : ContentRecommender.simPairs m profile (a :: l)
              = (a, nvecDot (m.normRow idx) profile)
                  :: ContentRecommender.simPairs m profile l := by
            unfold ContentRecommender.simPairs
            rw [List.filterMap_cons]
            simp only [hma, Option.map_some']
            rw [hkey]
          rw [hsp, dictLookup_cons, ih]
          by_cases hml : mid ∈ l
          · rw [if_pos hml, if_pos (List.mem_cons_of_mem a hml)]
            cases hmm : m.movie_index mid with
            | none =>
                have hne : ¬ a = mid := by
                  rintro rfl
                  rw [hma] at hmm
                  cases hmm
                simp [hne]
            | some j => simp
          · rw [if_neg hml]
            by_cases hia : mid = a
            · subst hia
              rw [if_pos (List.mem_cons_self _ _), hma]
              simp
            · have hnm : ¬ mid ∈ a :: l := by simp [hia, hml]
              have hne : ¬ a = mid := fun h => hia h.symm
              rw [if_neg hnm]
              simp [hne]

/-- C9: `similarity_to_profile` viewed as the id → cosine-score dict is
invariant under permuting the supplied candidate-id sequence: each known id
maps to the cosine of its normalized row with the profile, and unknown ids
are absent, regardless of supplied order. -/
theorem c9_similarity_perm (m : ContentRecommender) (profile : NVec)
    (l1 l2 : List ℤ) (hperm : List.Perm l1 l2) (mid : ℤ) :
    m.similarity_to_profile profile l1 mid
      = m.similarity_to_profile profile l2 mid := by
  rw [similarity_lookup_eq, similarity_lookup_eq]
  by_cases h : mid ∈ l1
  · rw [if_pos h, if_pos (hperm.mem_iff.mp h)]
  · rw [if_neg h, if_neg (fun h2 => h (hperm.mem_iff.mpr h2))]

theorem c9_similarity_perm_witness :
    (ContentRecommender.mk [[1, 0], [0, 1]] [5, 6]).similarity_to_profile
        ((([1, 0] : List ℚ), (1 : ℚ)) : NVec) [5, 6] 5
      = (ContentRecommender.mk [[1, 0], [0, 1]] [5, 6]).similarity_to_profile
        ((([1, 0] : List ℚ), (1 : ℚ)) : NVec) [6, 5] 5 :=
  c9_similarity_perm (ContentRecommender.mk [[1, 0], [0, 1]] [5, 6])
    ((([1, 0] : List ℚ), (1 : ℚ)) : NVec) [5, 6] [6, 5] (by decide) 5

/-- C8: when `n` exceeds the candidate pool (the row count of the TF-IDF
matrix), `recommend_from_profile` with no exclusions returns exactly the
full pool — one entry per indexed item, in some order that is a permutation
of all items — sorted weakly descending by content score. -/
theorem c8_full_pool (m : ContentRecommender) (profile : NVec) (n : ℕ)
    (p : List ℕ)
    (hn : m.rows.length < n)
    (hp : SelectsTop cscoreLt (m.fullScore profile []) m.rows.length n p) :
    List.Perm (m.recommend_from_profile profile n [] p)
      ((List.range m.rows.length).map
        (fun i => ContentRecommender.CEntry.mk (m.movie_ids.getD i 0)
          (m.fullScore profile [] i))) ∧
    DescChain cscoreLt ((m.recommend_from_profile profile n [] p).map
      (fun e => e.content_score)) := by
  have hn0 : n ≠ 0 := by omega
  have hplen : p.length = m.rows.length := by
    rw [hp.2.1]; omega
  have hperm : List.Perm p (List.range m.rows.length) := by
    apply List.perm_of_nodup_nodup_toFinset_eq hp.1 (List.nodup_range _)
    apply Finset.eq_of_subset_of_card_le
    · intro j hj
      rw [List.mem_toFinset] at hj
      rw [List.mem_toFinset, List.mem_range]
      exact hp.2.2.1 j hj
    · rw [List.toFinset_card_of_nodup hp.1, hplen,
        List.toFinset_card_of_nodup (List.nodup_range _), List.length_range]
  constructor
  · unfold ContentRecommender.recommend_from_profile
    rw [if_neg hn0]
    exact ((sortDescBy_perm _ p).map _).trans (hperm.map _)
  · unfold ContentRecommender.recommend_from_profile
    rw [if_neg hn0]
    rw [List.map_map]
    unfold DescChain
    rw [List.chain'_map]
    exact descChain_sortDescBy
      (fun i j => cscoreLt (m.fullScore profile [] i) (m.fullScore profile [] j))
      (fun i j h => cscoreLt_asymm _ _ h) p

theorem c8_full_pool_witness :
    List.Perm
      ((ContentRecommender.mk [[1, 0], [0, 1]] [5, 6]).recommend_from_profile
        ((([1, 0] : List ℚ), (1 : ℚ)) : NVec) 3 [] [0, 1])
      ((List.range (ContentRecommender.mk [[1, 0], [0, 1]] [5, 6]).rows.length).map
        (fun i => ContentRecommender.CEntry.mk
          ((ContentRecommender.mk [[1, 0], [0, 1]] [5, 6]).movie_ids.getD i 0)
          ((ContentRecommender.mk [[1, 0], [0, 1]] [5, 6]).fullScore
            ((([1, 0] : List ℚ), (1 : ℚ)) : NVec) [] i))) :=
  (c8_full_pool (ContentRecommender.mk [[1, 0], [0, 1]] [5, 6])
    ((([1, 0] : List ℚ), (1 : ℚ)) : NVec) 3 [0, 1] (by decide) (by decide)).1

/-- Concrete CF model used to refute claim C1 as stated: a known user with
no rated items and two items, so the hybrid falls back to the plain CF
ranking. -/
def cfC1x : CFRecommender where
  num_users := 1
  num_items := 2
  rank := 0
  user_index := fun s => if s = "u1" then some 0 else none
  item_index := fun _ => none
  index_item := fun i => (i : ℤ)
  user_factors := fun _ _ => 0
  item_factors := fun _ _ => 0
  user_means := fun _ => 0
  item_means := fun _ => 0
  global_mean := 0
  rated_items := fun _ => []

theorem cfC1x_score_items :
    score_items cfC1x "u1" true = [((0 : ℚ) : WithBot ℚ), ((0 : ℚ) : WithBot ℚ)] := by
  have hraw : ∀ i, cfC1x.rawScore 0 i = 0 := by
    intro i; norm_num [CFRecommender.rawScore, cfC1x]
  have hexcl : cfC1x.exclScore true 0 = fun _ => ((0 : ℚ) : WithBot ℚ) := by
    funext i
    unfold CFRecommender.exclScore
    rw [if_neg (by simp [cfC1x]), hraw i]
  have hs : score_items cfC1x "u1" true
      = (List.range 2).map (cfC1x.exclScore true 0) := rfl
  rw [hs, hexcl]
  rfl

/-- C1 (counterexample): the fallback branch returns the whole candidate
list, not `n` items.  With the default config (`candidate_k = 200`), a known
user with no rated items, 2 items and `n = 1`, the user-anchored hybrid
returns 2 entries, not 1. -/
theorem c1_hybrid_counterexample :
    cfC1x.user_index "u1" = some 0 ∧
    cfC1x.rated_items 0 = [] ∧
    (recommendHybrid cfC1x (ContentRecommender.mk [] []) {} [] "u1" 1 true).length
      = 2 ∧
    (2 : ℕ) ≠ 1 := by
  refine ⟨rfl, rfl, ?_, by decide⟩
  unfold recommendHybrid
  rw [cfC1x_score_items]
  decide

/-- C1 (amended): for a known user whose rated-item list is empty or whose
rated items have no overlap with the content index, the user-anchored
hybrid falls back — without raising any error — to the plain CF ranking
(the candidate list: the top `candidate_k` items by CF score, score
descending with ties by ascending index), with the hybrid/content score
fields omitted from every entry.  The fallback returns
`min(candidate_k, num_items)` entries, not `n`. -/
theorem c1_hybrid_fallback (m : CFRecommender) (cm : ContentRecommender)
    (cfg : HybridConfig) (bo : List ℕ) (uid : String) (u n : ℕ) (er : Bool)
    (hu : m.user_index uid = some u)
    (hni : m.num_items ≠ 0)
    (hfb : m.rated_items u = [] ∨
      cm.profile_from_movie_ids ((m.rated_items u).map m.index_item) = none) :
    recommendHybrid m cm cfg bo uid n er =
      format_results m (fun i => (score_items m uid er).getD i ⊥)
        (top_indices_model (fun i => (score_items m uid er).getD i ⊥)
          (score_items m uid er).length cfg.candidate_k) none ∧
    (recommendHybrid m cm cfg bo uid n er).length = min cfg.candidate_k m.num_items ∧
    ∀ e ∈ recommendHybrid m cm cfg bo uid n er, e.hybrid_score = none := by
  have hlen : (score_items m uid er).length = m.num_items := by
    unfold score_items
    rw [hu]
    simp
  have hbp : build_profile m cm uid = none := by
    unfold build_profile
    rw [hu]
    rcases hfb with h | h
    · simp [h]
    · by_cases hr : m.rated_items u = []
      · simp [hr]
      · simp [hr, h]
  have heq : recommendHybrid m cm cfg bo uid n er =
      format_results m (fun i => (score_items m uid er).getD i ⊥)
        (top_indices_model (fun i => (score_items m uid er).getD i ⊥)
          (score_items m uid er).length cfg.candidate_k) none := by
    unfold recommendHybrid
    rw [hbp, if_neg (by rw [hlen]; exact hni)]
  refine ⟨heq, ?_, ?_⟩
  · rw [heq]
    unfold format_results
    rw [List.length_map]
    unfold top_indices_model
    rw [List.length_take, length_sortDescBy, List.length_range, hlen]
    omega
  · rw [heq]
    intro e he
    unfold format_results at he
    rcases List.mem_map.mp he with ⟨i, -, rfl⟩
    rfl

/-- Concrete CF model for the C1 witness (same shape as `cfC1x`). -/
def cfC1w : CFRecommender where
  num_users := 1
  num_items := 2
  rank := 0
  user_index := fun s => if s = "u1" then some 0 else none
  item_index := fun _ => none
  index_item := fun i => (i : ℤ)
  user_factors := fun _ _ => 0
  item_factors := fun _ _ => 0
  user_means := fun _ => 0
  item_means := fun _ => 0
  global_mean := 0
  rated_items := fun _ => []

theorem c1_hybrid_fallback_witness :
    (recommendHybrid cfC1w (ContentRecommender.mk [] []) {} [] "u1" 5 true).length
      = min 200 2 :=
  (c1_hybrid_fallback cfC1w (ContentRecommender.mk [] []) {} [] "u1" 0 5 true
    rfl (by decide) (Or.inl rfl)).2.1

/-- The profile-availability condition the seed endpoint tests, simplified:
the text profile is absent exactly when no seed id is unmapped. -/
theorem seed_profile_cond (cm : ContentRecommender) (dbMap : ℤ → Option ℤ)
    (textOf : ℤ → List ℚ) (tmdb_ids : List ℤ) :
    (cm.profile_from_movie_ids (tmdb_ids.filterMap dbMap) = none ∧
      (if tmdb_ids.filter (fun t => (dbMap t).isNone) = [] then none
       else ContentRecommender.profile_from_texts
         ((tmdb_ids.filter (fun t => (dbMap t).isNone)).map textOf)) = none) ↔
    (cm.profile_from_movie_ids (tmdb_ids.filterMap dbMap) = none ∧
      tmdb_ids.filter (fun t => (dbMap t).isNone) = []) := by
  have htext : ∀ miss : List ℤ, miss ≠ [] →
      ContentRecommender.profile_from_texts (miss.map textOf) ≠ none := by
    intro miss hm
    unfold ContentRecommender.profile_from_texts
    rw [if_neg (by simpa using hm)]
    simp
  constructor
  · rintro ⟨ha, hb⟩
    refine ⟨ha, ?_⟩
    by_cases hmiss : tmdb_ids.filter (fun t => (dbMap t).isNone) = []
    · exact hmiss
    · rw [if_neg hmiss] at hb
      exact absurd hb (htext _ hmiss)
  · rintro ⟨ha, hb⟩
    exact ⟨ha, by rw [if_pos hb]⟩

/-- C2 (amended): with the model, database and TMDB client all configured
and a nonempty seed list, the seed-anchored hybrid fails with the
`NoProfileAvailable` ("not found"-class) error exactly when neither the
mapped profile (no mapped seed id is known to the content index) nor the
text-derived profile (every seed id is mapped, so no text fallback is
attempted) can be built; in every other case it returns a ranking without
error.  (An empty seed list is rejected with a bad-request error before any
profile is attempted, see the counterexample.) -/
theorem c2_seed_noprofile (cm : ContentRecommender) (item_index : ℤ → Option ℕ)
    (item_means : ℕ → ℚ) (global_mean : ℚ) (dbMap : ℤ → Option ℤ)
    (textOf : ℤ → List ℚ) (tmdb_ids : List ℤ) (n : ℕ)
    (content_results : List (ℤ × ℚ))
    (hne : tmdb_ids ≠ []) :
    (seed_hybrid true true true cm item_index item_means global_mean dbMap
        textOf tmdb_ids n content_results = Except.error SeedErr.noProfile ↔
      (cm.profile_from_movie_ids (tmdb_ids.filterMap dbMap) = none ∧
        tmdb_ids.filter (fun t => (dbMap t).isNone) = [])) ∧
    (¬ (cm.profile_from_movie_ids (tmdb_ids.filterMap dbMap) = none ∧
        tmdb_ids.filter (fun t => (dbMap t).isNone) = []) →
      (seed_hybrid true true true cm item_index item_means global_mean dbMap
        textOf tmdb_ids n content_results).isOk = true) := by
  by_cases hc : (cm.profile_from_movie_ids (tmdb_ids.filterMap dbMap) = none ∧
      tmdb_ids.filter (fun t => (dbMap t).isNone) = [])
  · have hres : seed_hybrid true true true cm item_index item_means global_mean
        dbMap textOf tmdb_ids n content_results
          = Except.error SeedErr.noProfile := by
      unfold seed_hybrid
      rw [if_neg (by simp), if_neg (by simp), if_neg hne, if_neg (by simp),
        if_pos ((seed_profile_cond cm dbMap textOf tmdb_ids).mpr hc)]
    rw [hres]
    exact ⟨by simp [hc], fun hnc => absurd hc hnc⟩
  · have hok : ∃ out, seed_hybrid true true true cm item_index item_means
        global_mean dbMap textOf tmdb_ids n content_results
          = Except.ok out := by
      unfold seed_hybrid
      rw [if_neg (by simp), if_neg (by simp), if_neg hne, if_neg (by simp),
        if_neg (fun h => hc ((seed_profile_cond cm dbMap textOf tmdb_ids).mp h))]
      by_cases hcr : content_results = []
      · rw [if_pos hcr]
        exact ⟨[], rfl⟩
      · rw [if_neg hcr]
        exact ⟨_, rfl⟩
    rcases hok with ⟨out, hres⟩
    rw [hres]
    constructor
    · constructor
      · intro h
        cases h
      · intro h
        exact absurd h hc
    · intro _
      rfl

/-- C2 (counterexample): with everything configured, the empty seed list —
for which neither profile can be built — is rejected with the bad-request
error (HTTP 400, "tmdb_ids is required"), not with the
`NoProfileAvailable` 404, refuting the claimed "if and only if". -/
theorem c2_seed_counterexample :
    seed_hybrid true true true (ContentRecommender.mk [] []) (fun _ => none)
        (fun _ => 0) 0 (fun _ => none) (fun _ => []) [] 5 []
      = Except.error SeedErr.badRequest ∧
    (ContentRecommender.mk [] []).profile_from_movie_ids
        (([] : List ℤ).filterMap (fun _ => none)) = none ∧
    ContentRecommender.profile_from_texts (([] : List ℤ).map (fun _ => [])) = none ∧
    (Except.error SeedErr.badRequest : Except SeedErr (List SeedOut))
      ≠ Except.error SeedErr.noProfile := by
  refine ⟨rfl, rfl, rfl, ?_⟩
  intro h
  exact SeedErr.noConfusion (Except.error.inj h)

theorem c2_seed_noprofile_witness :
    (seed_hybrid true true true (ContentRecommender.mk [] []) (fun _ => none)
      (fun _ => 0) 0 (fun _ => none) (fun _ => [1]) [5] 3 []).isOk = true :=
  (c2_seed_noprofile (ContentRecommender.mk [] []) (fun _ => none)
    (fun _ => 0) 0 (fun _ => none) (fun _ => [1]) [5] 3 [] (by decide)).2
    (by decide)

/-- Positional alignment of the seed-hybrid blend: each blended entry's
`cf_score` is the CF popularity proxy of its own `movie_id`. -/
theorem seed_results_cf (cr : List (ℤ × ℚ)) (proxy : ℤ → ℚ) (nrm : List ℚ)
    (e : SeedOut)
    (he : e ∈ (cr.zip (((cr.map (fun x => x.1)).map proxy).zip nrm)).map
      (fun q => SeedOut.mk q.1.1 q.1.2 q.2.1
        (7 / 10 * q.2.2 + 3 / 10 * q.1.2))) :
    e.cf_score = proxy e.movie_id := by
  rcases List.mem_map.mp he with ⟨q, hq, rfl⟩
  rcases List.mem_iff_getElem.mp hq with ⟨k, hk, hqe⟩
  have hk1 : k < cr.length := by
    simp only [List.length_zip, List.length_map, lt_min_iff] at hk
    exact hk.1
  rw [List.getElem_zip, List.getElem_zip, List.getElem_map, List.getElem_map]
    at hqe
  subst hqe
  rfl

/-- C10: with the service configured, a nonempty seed list and at least one
buildable profile, the seed-hybrid request succeeds (`ok`, never an error),
and every content candidate whose movie id is absent from the CF item index
receives the global mean rating as its CF popularity-proxy score. -/
theorem c10_seed_unknown_proxy (cm : ContentRecommender)
    (item_index : ℤ → Option ℕ) (item_means : ℕ → ℚ) (global_mean : ℚ)
    (dbMap : ℤ → Option ℤ) (textOf : ℤ → List ℚ) (tmdb_ids : List ℤ) (n : ℕ)
    (content_results : List (ℤ × ℚ))
    (hne : tmdb_ids ≠ [])
    (hnp : ¬ (cm.profile_from_movie_ids (tmdb_ids.filterMap dbMap) = none ∧
      tmdb_ids.filter (fun t => (dbMap t).isNone) = [])) :
    ((seed_hybrid true true true cm item_index item_means global_mean dbMap
      textOf tmdb_ids n content_results).isOk = true) ∧
    (∀ out, seed_hybrid true true true cm item_index item_means global_mean
        dbMap textOf tmdb_ids n content_results = Except.ok out →
      ∀ e ∈ out, item_index e.movie_id = none → e.cf_score = global_mean) := by
  unfold seed_hybrid
  rw [if_neg (by simp), if_neg (by simp), if_neg hne, if_neg (by simp),
    if_neg (fun h => hnp ((seed_profile_cond cm dbMap textOf tmdb_ids).mp h))]
  by_cases hcr : content_results = []
  · rw [if_pos hcr]
    refine ⟨rfl, ?_⟩
    intro out hout
    cases hout
    intro e he
    cases he
  · rw [if_neg hcr]
    refine ⟨rfl, ?_⟩
    intro out hout e he hidx
    have hout' := (Except.ok.inj hout).symm
    subst hout'
    have he1 := List.mem_of_mem_take he
    have he2 := (mem_sortDescBy _ _ _).mp he1
    have := seed_results_cf content_results
      (fun mid => match item_index mid with
        | none => global_mean
        | some idx => item_means idx)
      (min_max ((content_results.map (fun x => x.1)).map
        (fun mid => match item_index mid with
          | none => global_mean
          | some idx => item_means idx))) e he2
    rw [this]
    simp [hidx]

theorem c10_seed_unknown_proxy_witness :
    (seed_hybrid true true true (ContentRecommender.mk [] []) (fun _ => none)
      (fun _ => 0) 0 (fun _ => none) (fun _ => [2]) [9] 2 [(3, 1)]).isOk = true :=
  (c10_seed_unknown_proxy (ContentRecommender.mk [] []) (fun _ => none)
    (fun _ => 0) 0 (fun _ => none) (fun _ => [2]) [9] 2 [(3, 1)]
    (by decide) (by decide)).1

end MRP
